import Mathlib

/-!
Verification of the metadata-generation and normalization pipeline of the
stock-asset metadata web app.  The embedding models JavaScript strings as
lists of characters, JSON values as an inductive type with JS truthiness,
and the service module's functions (`sanitizeMetadata`, the groq and gemini
branches of `generateAssetMetadata`) as total Lean functions returning
`Except` where the JavaScript code can throw.
-/

/-- JavaScript strings are modelled as lists of characters. -/
abbrev Str : Type := List Char

/-- Shorthand turning a Lean string literal into the character-list model. -/
def str (s : String) : Str := s.data

/-- The whitespace test used by the model of `String.prototype.trim`. -/
def wsChar (c : Char) : Bool := c.isWhitespace

/-- Model of JS `s.trim()`: drop leading and trailing whitespace. -/
def jsTrim (s : Str) : Str :=
  ((s.dropWhile wsChar).reverse.dropWhile wsChar).reverse

/-- Model of JS `s.toLowerCase()` (ASCII range, as `Char.toLower`). -/
def jsLower (s : Str) : Str := s.map Char.toLower

/-- Model of JS `s.split(sep)` for a one-character separator: splits at every
occurrence, never returns the empty list (splitting the empty string yields
one empty piece, as in JavaScript). -/
def splitOnChar (c : Char) : List Char → List (List Char)
  | [] => [[]]
  | x :: xs =>
    if x = c then [] :: splitOnChar c xs
    else (x :: (splitOnChar c xs).headI) :: (splitOnChar c xs).tail

/-- Model of the JSON value domain (numbers restricted to integers). -/
inductive Json where
  | jnull : Json
  | jbool (b : Bool) : Json
  | jnum (n : Int) : Json
  | jstr (s : Str) : Json
  | jarr (elems : List Json) : Json
  | jobj (fields : List (Str × Json)) : Json

/-- JS truthiness of a JSON value: `null`, `false`, `0` and `""` are falsy;
every other JSON value (including any array or object) is truthy. -/
def jsTruthy : Json → Bool
  | .jnull => false
  | .jbool b => b
  | .jnum n => !(n = 0)
  | .jstr s => !s.isEmpty
  | .jarr _ => true
  | .jobj _ => true

/-- Property access `data.key` on a JSON object: the field's value when the
key is present, otherwise `none` (JS `undefined`). -/
def getField (data : List (Str × Json)) (key : Str) : Option Json :=
  (data.find? (fun p => p.1 = key)).map (fun p => p.2)

/-- Model of the JS expression `v || fb`: the field value when present and
truthy, otherwise the fallback. -/
def jsOr (v : Option Json) (fb : Json) : Json :=
  match v with
  | some j => if jsTruthy j then j else fb
  | none => fb

/-- Errors the modelled service functions can produce, following the spec's
taxonomy; `typeError` stands for the TypeError a JS method call on a
non-string value raises. -/
inductive GenError where
  | missingCredential : GenError
  | providerError (msg : Str) : GenError
  | malformedResponse : GenError
  | typeError : GenError
deriving DecidableEq

/-- Calling a string method (`split`, `substring`) on a JSON value: succeeds
exactly on strings, raises a TypeError otherwise. -/
def asStr : Json → Except GenError Str
  | .jstr s => .ok s
  | _ => .error .typeError

/-- The four marketplaces, from `types.ts`. -/
inductive Platform where
  | Shutterstock : Platform
  | AdobeStock : Platform
  | Dreamstime : Platform
  | Teepublic : Platform
deriving DecidableEq

/-- The media kinds, from `types.ts`. -/
inductive AssetType where
  | Photo : AssetType
  | Vector : AssetType
  | Video : AssetType
deriving DecidableEq

/-- The fixed Shutterstock category list, from `constants.ts` (27 entries). -/
def SHUTTERSTOCK_CATEGORIES : List Str :=
  [str "Abstract", str "Animals/Wildlife", str "The Arts",
   str "Backgrounds/Textures", str "Beauty/Fashion", str "Buildings/Landmarks",
   str "Business/Finance", str "Celebrities", str "Education",
   str "Food and Drink", str "Healthcare/Medical", str "Holidays",
   str "Industrial", str "Interiors", str "Miscellaneous", str "Nature",
   str "Objects", str "Parks/Outdoor", str "People", str "Religion",
   str "Science", str "Signs/Symbols", str "Sports/Recreation",
   str "Technology", str "Transportation", str "Vectors", str "Vintage"]

/-- The Metadata record, from `types.ts`.  `title`, `description` and
`keywords` are strings; `mainTag` is kept as a JSON value because the JS
code passes a truthy provider value through unchecked; the categories are
either absent or members of the category list. -/
structure Metadata where
  title : Str
  description : Str
  keywords : Str
  mainTag : Json
  category1 : Option Str
  category2 : Option Str

/-- Model of the keyword cleanup
`(data.keywords || "").split(',').map(s => s.trim().toLowerCase()).filter(Boolean)`. -/
def cleanTokens (s : Str) : List Str :=
  ((splitOnChar ',' s).map (fun t => jsLower (jsTrim t))).filter (fun t => !t.isEmpty)

/-- Model of the padding loop
`for (let i = 0; kw.length < 49; i++) kw.push(kw[i % originalCount] + "_concept")`.
The JS loop runs until the length reaches 49 and each iteration adds one
entry, so a fuel of 49 is enough for every starting list; the guard is kept
so the function agrees with the loop whenever the fuel suffices. -/
def padLoop (origCount i fuel : Nat) (kw : List Str) : List Str :=
  match fuel with
  | 0 => kw
  | fuel' + 1 =>
    if kw.length < 49 then
      padLoop origCount (i + 1) fuel' (kw ++ [kw.getD (i % origCount) [] ++ str "_concept"])
    else kw

/-- The `Guarantee exactly 49 keywords` block of `sanitizeMetadata`:
truncate above 49, pad below 49 when non-empty, leave untouched otherwise. -/
def keywords49 (kw : List Str) : List Str :=
  if kw.length > 49 then kw.take 49
  else if kw.length < 49 && kw.length > 0 then padLoop kw.length 0 49 kw
  else kw

/-- The JSON value the keyword cleanup starts from: `data.keywords || ""`. -/
def kwFieldValue (data : List (Str × Json)) : Json :=
  jsOr (getField data (str "keywords")) (.jstr [])

/-- The JSON value the title is built from: `data.title || "Untitled Stock Asset"`. -/
def titleFieldValue (data : List (Str × Json)) : Json :=
  jsOr (getField data (str "title")) (.jstr (str "Untitled Stock Asset"))

/-- The JSON value the description is built from (provider value or fixed fallback). -/
def descFieldValue (data : List (Str × Json)) : Json :=
  jsOr (getField data (str "description"))
    (.jstr (str "High quality commercial stock asset for creative projects."))

/-- Model of `SHUTTERSTOCK_CATEGORIES.includes(x) ? x : SHUTTERSTOCK_CATEGORIES[i]`:
`includes` uses strict equality, so only a string field equal to a category
is accepted; anything else (absent, wrong-typed, unknown name) falls back to
the positional default. -/
def catPick (v : Option Json) (i : Nat) : Str :=
  match v with
  | some (.jstr c) => if c ∈ SHUTTERSTOCK_CATEGORIES then c else SHUTTERSTOCK_CATEGORIES.getD i []
  | _ => SHUTTERSTOCK_CATEGORIES.getD i []

/-- Model of JS `kw.join(', ')`. -/
def joinComma : List Str → Str
  | [] => []
  | [t] => t
  | t :: u :: rest => t ++ str ", " ++ joinComma (u :: rest)

/-- The record literal `sanitizeMetadata` returns, given the already-computed
keyword list and the two extracted strings. -/
def mkMeta (platform : Platform) (data : List (Str × Json)) (kw : List Str)
    (titleS descS : Str) : Metadata :=
  { title := titleS.take 120
    description := descS.take 200
    keywords := joinComma kw
    mainTag := jsOr (getField data (str "mainTag"))
      (jsOr (kw.head?.map Json.jstr)
        (.jstr (if platform = Platform.Teepublic then str "graphic" else [])))
    category1 := if platform = Platform.Shutterstock
      then some (catPick (getField data (str "category1")) 0) else none
    category2 := if platform = Platform.Shutterstock
      then some (catPick (getField data (str "category2")) 1) else none }

/-- Model of `sanitizeMetadata(data, platform)` from the service module.
The input is the provider's parsed JSON object (its field list).  The three
string-method call sites are the only places the JS function can throw, in
this evaluation order: the keyword split runs first, then the title and
description `substring` calls inside the returned object literal. -/
def sanitizeMetadata (data : List (Str × Json)) (platform : Platform) :
    Except GenError Metadata :=
  match asStr (kwFieldValue data) with
  | .error e => .error e
  | .ok kwS =>
    let kw := keywords49 (cleanTokens kwS)
    match asStr (titleFieldValue data) with
    | .error e => .error e
    | .ok titleS =>
      match asStr (descFieldValue data) with
      | .error e => .error e
      | .ok descS => .ok (mkMeta platform data kw titleS descS)

example :
    sanitizeMetadata [] Platform.AdobeStock =
      .ok { title := str "Untitled Stock Asset"
            description := str "High quality commercial stock asset for creative projects."
            keywords := []
            mainTag := Json.jstr []
            category1 := none
            category2 := none } := rfl

example :
    sanitizeMetadata [(str "keywords", Json.jnum 5)] Platform.AdobeStock =
      .error .typeError := rfl

example :
    (cleanTokens (str "Cat, Cat, Dog")) = [str "cat", str "cat", str "dog"] := rfl

example :
    (keywords49 (cleanTokens (str "Cat, Cat, Dog"))).length = 49 := by decide

example :
    (keywords49 (cleanTokens (str "Cat, Cat, Dog"))).getD 3 [] = str "cat_concept" := by decide

example :
    (keywords49 (cleanTokens (str "Cat, Cat, Dog"))).getD 5 [] = str "dog_concept" := by decide

/-- Tokens of a joined keyword string, for stating properties of the output:
split on commas, trim each piece (mirroring how a consumer reads the
comma-joined field back). -/
def keywordTokens (s : Str) : List Str := (splitOnChar ',' s).map jsTrim

/-- An asset as the generation entry point consumes it: filename, detected
media kind, and the binary file content with its MIME type. -/
structure Asset where
  name : Str
  type : AssetType
  fileBytes : List Nat
  fileMime : Str

/-- Rendering of a `Platform` value inside a template literal. -/
def platformName : Platform → Str
  | .Shutterstock => str "Shutterstock"
  | .AdobeStock => str "Adobe Stock"
  | .Dreamstime => str "Dreamstime"
  | .Teepublic => str "Teepublic"

/-- Rendering of an `AssetType` value inside a template literal. -/
def assetTypeName : AssetType → Str
  | .Photo => str "Photo"
  | .Vector => str "Vector"
  | .Video => str "Video"

/-- The instruction prompt `generateAssetMetadata` builds: the template
literal with its interpolations made explicit.  A pure function of the
filename, the detected type and the marketplace (the surrounding
indentation whitespace of the template is not reproduced verbatim). -/
def buildPrompt (name : Str) (ty : AssetType) (platform : Platform) : Str :=
  str "You are a high-level Stock Media Strategist. Your goal is to generate metadata that is 100% ACCURATE to the visual content provided.\nDo NOT guess. Analyze the actual image data carefully.\n\nASSET INFO:\n- Filename: "
  ++ name
  ++ str "\n- Type: " ++ assetTypeName ty
  ++ str "\n- Platform: " ++ platformName platform
  ++ str "\n\nINSTRUCTIONS:\n1. VISUAL ANALYSIS: Look at the main subject, background, lighting, and colors.\n2. TITLE (Max 120 chars): A literal, descriptive sentence of what is visible. Avoid adjectives like \"amazing\" or \"beautiful\". Use specific nouns.\n3. DESCRIPTION (Max 200 chars): Explain the scene in a way that someone searching for this exact content would find useful. Include technical details if relevant (e.g., \"flat vector design\", \"high contrast photo\").\n4. KEYWORDS (EXACTLY 49): Use highly specific, niche-focused keywords.\n   - Hierarchy: Main subject -> Environment -> Style -> Conceptual/Mood -> Technical specs.\n   - No duplicates. No broad generic fillers.\n"
  ++ (if platform = Platform.Teepublic
      then str "5. TEEPUBLIC: Select a single, extremely relevant \"Main Tag\" that summarizes the core niche."
      else [])
  ++ str "\n"
  ++ (if platform = Platform.Shutterstock
      then str "6. SHUTTERSTOCK: You MUST select the two most accurate categories from this list: "
        ++ List.intercalate (str ", ") SHUTTERSTOCK_CATEGORIES
        ++ str ". Ensure they represent the visual genre."
      else [])
  ++ str "\n\nSTRICT JSON OUTPUT:\n\x7b\n  \"title\": \"string\",\n  \"description\": \"string\",\n  \"keywords\": \"k1, k2, ..., k49\",\n  \"mainTag\": \"string\""
  ++ (if platform = Platform.Shutterstock
      then str ", \"category1\": \"CategoryName\", \"category2\": \"CategoryName\""
      else [])
  ++ str "\n\x7d"

/-- Leading-whitespace skipping for the JSON reader. -/
def skipWs (s : List Char) : List Char := s.dropWhile wsChar

/-- Body of a JSON string once the opening quote has been consumed; returns
the decoded characters and the input past the closing quote.  Handles the
single-character escapes (unicode escapes are out of the model). -/
def parseStringBody : List Char → Option (Str × List Char)
  | [] => none
  | c :: rest =>
    if c = '"' then some ([], rest)
    else if c = '\\' then
      match rest with
      | [] => none
      | e :: rest2 =>
        let dec : Option Char :=
          if e = '"' then some '"'
          else if e = '\\' then some '\\'
          else if e = '/' then some '/'
          else if e = 'n' then some '\n'
          else if e = 't' then some '\t'
          else if e = 'r' then some '\x0d'
          else if e = 'b' then some '\x08'
          else if e = 'f' then some '\x0c'
          else none
        match dec with
        | none => none
        | some ch =>
          match parseStringBody rest2 with
          | none => none
          | some (s, r) => some (ch :: s, r)
    else
      match parseStringBody rest with
      | none => none
      | some (s, r) => some (c :: s, r)

/-- Numeric value of a digit run. -/
def digitsToNat (ds : List Char) : Nat :=
  ds.foldl (fun a c => a * 10 + (c.toNat - 48)) 0

/-- True when a number token continues with a fraction or exponent part
(the model keeps JSON numbers integral and rejects those). -/
def numberContinues (r : List Char) : Bool :=
  match r with
  | c :: _ => c = '.' || c = 'e' || c = 'E'
  | [] => false

/-- Parser mode: a single value, the items of an array after `[`, or the
fields of an object after the opening brace. -/
inductive PMode where
  | value : PMode
  | arrItems : PMode
  | objFields : PMode

/-- Parser result, tagged by mode. -/
inductive PRes where
  | val (j : Json) (rest : List Char) : PRes
  | items (js : List Json) (rest : List Char) : PRes
  | fields (fs : List (Str × Json)) (rest : List Char) : PRes

/-- Recursive-descent JSON reader (model of `JSON.parse`), structurally
recursive on a fuel that each nested step decreases. -/
def parseStep : Nat → PMode → List Char → Option PRes
  | 0, _, _ => none
  | fuel + 1, PMode.value, s0 =>
    match skipWs s0 with
    | [] => none
    | c :: rest =>
      if c = '"' then
        match parseStringBody rest with
        | some (sv, r) => some (PRes.val (Json.jstr sv) r)
        | none => none
      else if c = '\x7b' then
        match skipWs rest with
        | d :: r2 =>
          if d = '\x7d' then some (PRes.val (Json.jobj []) r2)
          else
            match parseStep fuel PMode.objFields rest with
            | some (PRes.fields fs r) => some (PRes.val (Json.jobj fs) r)
            | _ => none
        | [] => none
      else if c = '[' then
        match skipWs rest with
        | d :: r2 =>
          if d = ']' then some (PRes.val (Json.jarr []) r2)
          else
            match parseStep fuel PMode.arrItems rest with
            | some (PRes.items js r) => some (PRes.val (Json.jarr js) r)
            | _ => none
        | [] => none
      else if c = 'n' then
        match rest with
        | 'u' :: 'l' :: 'l' :: r => some (PRes.val Json.jnull r)
        | _ => none
      else if c = 't' then
        match rest with
        | 'r' :: 'u' :: 'e' :: r => some (PRes.val (Json.jbool true) r)
        | _ => none
      else if c = 'f' then
        match rest with
        | 'a' :: 'l' :: 's' :: 'e' :: r => some (PRes.val (Json.jbool false) r)
        | _ => none
      else if c = '-' then
        let ds := rest.takeWhile Char.isDigit
        let r := rest.dropWhile Char.isDigit
        if ds.isEmpty then none
        else if numberContinues r then none
        else some (PRes.val (Json.jnum (-(digitsToNat ds : Int))) r)
      else if c.isDigit then
        let ds := (c :: rest).takeWhile Char.isDigit
        let r := (c :: rest).dropWhile Char.isDigit
        if numberContinues r then none
        else some (PRes.val (Json.jnum (digitsToNat ds)) r)
      else none
  | fuel + 1, PMode.arrItems, s0 =>
    match parseStep fuel PMode.value s0 with
    | some (PRes.val j r) =>
      match skipWs r with
      | c :: r2 =>
        if c = ',' then
          match parseStep fuel PMode.arrItems r2 with
          | some (PRes.items js r3) => some (PRes.items (j :: js) r3)
          | _ => none
        else if c = ']' then some (PRes.items [j] r2)
        else none
      | [] => none
    | _ => none
  | fuel + 1, PMode.objFields, s0 =>
    match skipWs s0 with
    | c :: rest =>
      if c = '"' then
        match parseStringBody rest with
        | some (k, r) =>
          match skipWs r with
          | d :: r2 =>
            if d = ':' then
              match parseStep fuel PMode.value r2 with
              | some (PRes.val v r3) =>
                match skipWs r3 with
                | e :: r4 =>
                  if e = ',' then
                    match parseStep fuel PMode.objFields r4 with
                    | some (PRes.fields fs r5) => some (PRes.fields ((k, v) :: fs) r5)
                    | _ => none
                  else if e = '\x7d' then some (PRes.fields [(k, v)] r4)
                  else none
                | [] => none
              | _ => none
            else none
          | [] => none
        | none => none
      else none
    | [] => none

/-- Model of `JSON.parse`: parse one value and require only whitespace after
it; `none` models the thrown SyntaxError. -/
def jsonParse (s : Str) : Option Json :=
  match parseStep (2 * s.length + 2) PMode.value s with
  | some (PRes.val j r) => if (skipWs r).isEmpty then some j else none
  | _ => none

/-- Feeding a parsed provider payload into `sanitizeMetadata`.  In JS,
property access on a number, boolean, string or array yields `undefined`
exactly as on the empty object, so those sanitize like the empty object,
while property access on `null` throws a TypeError. -/
def sanitizeParsed (j : Json) (platform : Platform) : Except GenError Metadata :=
  match j with
  | .jobj fields => sanitizeMetadata fields platform
  | .jnull => .error .typeError
  | _ => sanitizeMetadata [] platform

/-- The request the groq branch sends: the credential placed in the
Authorization header and the user-turn prompt (the remaining body fields of
the POST are constants). -/
structure GroqRequest where
  authKey : Str
  prompt : Str

/-- Outcome of the single network round-trip of the groq branch: a
non-success HTTP status carrying the upstream message, or a success whose
`content` is the `choices[0].message.content` string of the response. -/
inductive GroqNetResult where
  | notOk (errMsg : Str) : GroqNetResult
  | ok (content : Str) : GroqNetResult

/-- The groq (chat engine) branch of `generateAssetMetadata`.  The network
is an explicit oracle and the second component lists the requests actually
sent, so that "no network call happens" is the statement that the list is
empty.  The credential check `if (!context.groqKey) throw` runs first:
a missing or empty key fails with `missingCredential` before any call. -/
def generateAssetMetadataGroq (asset : Asset) (platform : Platform)
    (groqKey : Option Str) (net : GroqRequest → GroqNetResult) :
    Except GenError Metadata × List GroqRequest :=
  let keyMissing : Bool := match groqKey with | none => true | some k => k.isEmpty
  if keyMissing then (.error .missingCredential, [])
  else
    let req : GroqRequest := ⟨groqKey.getD [], buildPrompt asset.name asset.type platform⟩
    match net req with
    | .notOk msg => (.error (.providerError msg), [req])
    | .ok content =>
      match jsonParse content with
      | none => (.error .malformedResponse, [req])
      | some j => (sanitizeParsed j platform, [req])

/-- Outcome of the gemini vision call: the SDK call raised, or it returned a
response whose `text` field may be absent. -/
inductive GeminiCallResult where
  | raised (msg : Str) : GeminiCallResult
  | returned (text : Option Str) : GeminiCallResult

/-- The gemini (vision engine) branch of `generateAssetMetadata` after the
provider call: a raised call propagates as a provider error; otherwise the
code parses `response.text || "\x7b\x7d"`, so an absent or empty text falls
back to the empty-object literal instead of failing. -/
def generateAssetMetadataGemini (call : GeminiCallResult) (platform : Platform) :
    Except GenError Metadata :=
  match call with
  | .raised msg => .error (.providerError msg)
  | .returned text =>
    let raw := match text with
      | some t => if t.isEmpty then str "\x7b\x7d" else t
      | none => str "\x7b\x7d"
    match jsonParse raw with
    | none => .error .malformedResponse
    | some j => sanitizeParsed j platform

/-- A Metadata value re-read as a provider JSON object with the same six
fields (absent categories stay absent, as in JS where the fields are
`undefined`). -/
def metaToObj (m : Metadata) : List (Str × Json) :=
  [(str "title", Json.jstr m.title),
   (str "description", Json.jstr m.description),
   (str "keywords", Json.jstr m.keywords),
   (str "mainTag", m.mainTag)]
  ++ (match m.category1 with | some c => [(str "category1", Json.jstr c)] | none => [])
  ++ (match m.category2 with | some c => [(str "category2", Json.jstr c)] | none => [])

example : jsonParse (str "\x7b\x7d") = some (Json.jobj []) := rfl

example : jsonParse (str " \x7b \"title\" : \"Hi\" \x7d ") =
    some (Json.jobj [(str "title", Json.jstr (str "Hi"))]) := rfl

example : jsonParse (str "\x7b\"a\": [1, -2, true, null]\x7d") =
    some (Json.jobj [(str "a", Json.jarr [Json.jnum 1, Json.jnum (-2), Json.jbool true, Json.jnull])]) := rfl

example : jsonParse (str "nope") = none := rfl

example :
    generateAssetMetadataGemini (GeminiCallResult.returned none) Platform.AdobeStock =
      .ok { title := str "Untitled Stock Asset"
            description := str "High quality commercial stock asset for creative projects."
            keywords := []
            mainTag := Json.jstr []
            category1 := none
            category2 := none } := rfl

example (asset : Asset) (platform : Platform) (net : GroqRequest → GroqNetResult) :
    generateAssetMetadataGroq asset platform (some []) net =
      (.error .missingCredential, []) := rfl

/-- A string is trimmed when its first and last characters (when any) are
not whitespace; equivalent to being a fixed point of `jsTrim`. -/
def trimmed (l : Str) : Bool :=
  l.head?.all (fun c => !wsChar c) && l.getLast?.all (fun c => !wsChar c)

/-- The invariant satisfied by every entry of the normalized keyword list:
non-empty, comma-free, trim-stable and lower-case-stable. -/
def GoodToken (t : Str) : Prop :=
  t ≠ [] ∧ ',' ∉ t ∧ jsTrim t = t ∧ jsLower t = t

/-- The property claimed of the normalized keywords field: reading it back
by splitting on commas and trimming yields exactly 49 non-empty, lower-case,
trimmed tokens. -/
def keywordsOk49 (m : Metadata) : Prop :=
  (keywordTokens m.keywords).length = 49 ∧
    ∀ t ∈ keywordTokens m.keywords, t ≠ [] ∧ jsLower t = t ∧ jsTrim t = t

/-- Whether a JSON value is a string. -/
def Json.isStr : Json → Bool
  | .jstr _ => true
  | _ => false

/-- A field is stringly typed when, if present and truthy, it is a string
(absent or falsy fields of any type are fine: they take the fallback). -/
def stringlyTyped (data : List (Str × Json)) (key : Str) : Bool :=
  match getField data key with
  | some j => !jsTruthy j || j.isStr
  | none => true

/-- A property holds of the Metadata a sanitizer run produced (and the run
succeeded). -/
def exceptOkHolds (r : Except GenError Metadata) (P : Metadata → Prop) : Prop :=
  match r with
  | .ok m => P m
  | .error _ => False

/-! ### Character-level facts -/

theorem char_toNat_ofNat_valid (n : Nat) (h : n.isValidChar) : (Char.ofNat n).toNat = n := by
  simp only [Char.ofNat, dif_pos h, Char.ofNatAux, Char.toNat]
  rfl

theorem char_eq_iff_toNat (c d : Char) : c = d ↔ c.toNat = d.toNat := by
  constructor
  · intro h; rw [h]
  · intro h
    apply Char.eq_of_val_eq
    apply UInt32.ext
    exact h

theorem toLower_eq (c : Char) :
    Char.toLower c = if 65 ≤ c.toNat ∧ c.toNat ≤ 90 then Char.ofNat (c.toNat + 32) else c := rfl

theorem wsChar_toLower (c : Char) : wsChar (Char.toLower c) = wsChar c := by
  rw [toLower_eq]
  split_ifs with h
  · have hv : (c.toNat + 32).isValidChar := Or.inl (by omega)
    have ht : (Char.ofNat (c.toNat + 32)).toNat = c.toNat + 32 := char_toNat_ofNat_valid _ hv
    unfold wsChar Char.isWhitespace
    simp only [char_eq_iff_toNat, ht]
    have h32 : (' ' : Char).toNat = 32 := by decide
    have h9 : ('\t' : Char).toNat = 9 := by decide
    have h13 : ('\x0d' : Char).toNat = 13 := by decide
    have h10 : ('\n' : Char).toNat = 10 := by decide
    rw [h32, h9, h13, h10]
    have hl : (decide (c.toNat + 32 = 32) || decide (c.toNat + 32 = 9) ||
        decide (c.toNat + 32 = 13) || decide (c.toNat + 32 = 10)) = false := by
      simp only [Bool.or_eq_false_iff, decide_eq_false_iff_not]
      omega
    have hr : (decide (c.toNat = 32) || decide (c.toNat = 9) ||
        decide (c.toNat = 13) || decide (c.toNat = 10)) = false := by
      simp only [Bool.or_eq_false_iff, decide_eq_false_iff_not]
      omega
    rw [hl, hr]
  · rfl

theorem toLower_toLower (c : Char) : Char.toLower (Char.toLower c) = Char.toLower c := by
  by_cases h : 65 ≤ c.toNat ∧ c.toNat ≤ 90
  · have hv : (c.toNat + 32).isValidChar := Or.inl (by omega)
    have ht : (Char.ofNat (c.toNat + 32)).toNat = c.toNat + 32 := char_toNat_ofNat_valid _ hv
    rw [toLower_eq c, if_pos h, toLower_eq, ht, if_neg (by omega)]
  · rw [toLower_eq c, if_neg h, toLower_eq c, if_neg h]

theorem toLower_eq_comma (c : Char) (h : Char.toLower c = ',') : c = ',' := by
  by_contra hne
  rw [toLower_eq] at h
  split_ifs at h with hc
  · have hv : (c.toNat + 32).isValidChar := Or.inl (by omega)
    have ht : (Char.ofNat (c.toNat + 32)).toNat = c.toNat + 32 := char_toNat_ofNat_valid _ hv
    rw [char_eq_iff_toNat, ht] at h
    have h44 : (',' : Char).toNat = 44 := by decide
    omega
  · exact hne h

/-! ### splitOnChar facts -/

theorem splitOnChar_nil (c : Char) : splitOnChar c [] = [[]] := rfl

theorem splitOnChar_cons_self (c : Char) (xs : List Char) :
    splitOnChar c (c :: xs) = [] :: splitOnChar c xs := by
  simp [splitOnChar]

theorem splitOnChar_cons_ne (c x : Char) (xs : List Char) (h : x ≠ c) :
    splitOnChar c (x :: xs) =
      (x :: (splitOnChar c xs).headI) :: (splitOnChar c xs).tail := by
  simp only [splitOnChar]
  rw [if_neg h]

theorem splitOnChar_ne_nil (c : Char) (l : List Char) : splitOnChar c l ≠ [] := by
  cases l with
  | nil => simp [splitOnChar]
  | cons x xs =>
    by_cases h : x = c
    · subst h; rw [splitOnChar_cons_self]; simp
    · rw [splitOnChar_cons_ne c x xs h]; simp

theorem cons_headI_tail' {α : Type} [Inhabited α] (l : List α) (h : l ≠ []) :
    l.headI :: l.tail = l := by
  cases l with
  | nil => exact absurd rfl h
  | cons a t => rfl

theorem splitOnChar_not_mem (c : Char) (l : List Char) (h : c ∉ l) :
    splitOnChar c l = [l] := by
  induction l with
  | nil => rfl
  | cons x xs ih =>
    have hx : x ≠ c := fun hc => h (hc ▸ List.mem_cons_self x xs)
    have hxs : c ∉ xs := fun hc => h (List.mem_cons_of_mem x hc)
    rw [splitOnChar_cons_ne c x xs hx, ih hxs]
    rfl

theorem splitOnChar_append (c : Char) (l₁ l₂ : List Char) (h : c ∉ l₁) :
    splitOnChar c (l₁ ++ c :: l₂) = l₁ :: splitOnChar c l₂ := by
  induction l₁ with
  | nil => simpa using splitOnChar_cons_self c l₂
  | cons x xs ih =>
    have hx : x ≠ c := fun hc => h (hc ▸ List.mem_cons_self x xs)
    have hxs : c ∉ xs := fun hc => h (List.mem_cons_of_mem x hc)
    have hrec := ih hxs
    rw [List.cons_append, splitOnChar_cons_ne c x _ hx, hrec]
    rfl

theorem not_mem_of_mem_splitOnChar (c : Char) (l : List Char) (t : List Char)
    (ht : t ∈ splitOnChar c l) : c ∉ t := by
  induction l generalizing t with
  | nil =>
    simp only [splitOnChar_nil, List.mem_singleton] at ht
    subst ht
    simp
  | cons x xs ih =>
    by_cases hx : x = c
    · subst hx
      rw [splitOnChar_cons_self] at ht
      rcases List.mem_cons.mp ht with h1 | h2
      · subst h1; simp
      · exact ih t h2
    · rw [splitOnChar_cons_ne c x xs hx] at ht
      rcases List.mem_cons.mp ht with h1 | h2
      · subst h1
        intro hmem
        rcases List.mem_cons.mp hmem with h3 | h4
        · exact hx h3.symm
        · have hhead : (splitOnChar c xs).headI ∈ splitOnChar c xs := by
            have hne := splitOnChar_ne_nil c xs
            cases hs : splitOnChar c xs with
            | nil => exact absurd hs hne
            | cons a t' => simp
          exact ih _ hhead h4
      · have htail : t ∈ splitOnChar c xs := by
          have hne := splitOnChar_ne_nil c xs
          cases hs : splitOnChar c xs with
          | nil => exact absurd hs hne
          | cons a t' =>
            rw [hs] at h2
            exact List.mem_cons_of_mem a h2
        exact ih t htail

/-! ### Trim facts -/

theorem dropWhile_eq_self_of_head {p : Char → Bool} (l : List Char)
    (h : l.head?.all (fun c => !p c) = true) : l.dropWhile p = l := by
  cases l with
  | nil => rfl
  | cons a t =>
    simp only [List.head?_cons, Option.all_some, Bool.not_eq_true'] at h
    simp [List.dropWhile_cons, h]

theorem getLast?_dropWhile (p : Char → Bool) (l : List Char)
    (h : l.dropWhile p ≠ []) : (l.dropWhile p).getLast? = l.getLast? := by
  induction l with
  | nil => rfl
  | cons a t ih =>
    by_cases hp : p a
    · rw [List.dropWhile_cons_of_pos hp] at h ⊢
      rw [ih h]
      have ht : t ≠ [] := by
        intro hnil
        rw [hnil] at h
        exact h rfl
      cases t with
      | nil => exact absurd rfl ht
      | cons b r => rw [List.getLast?_cons_cons]
    · rw [List.dropWhile_cons_of_neg hp]

theorem head?_dropWhile_all (p : Char → Bool) (l : List Char) :
    (l.dropWhile p).head?.all (fun c => !p c) = true := by
  have h := List.head?_dropWhile_not p l
  cases hh : (l.dropWhile p).head? with
  | none => rfl
  | some x =>
    rw [hh] at h
    simp [h]

theorem trimmed_jsTrim (l : Str) : trimmed (jsTrim l) = true := by
  unfold trimmed jsTrim
  apply Bool.and_eq_true_iff.mpr
  constructor
  · rw [List.head?_reverse]
    by_cases hX : ((l.dropWhile wsChar).reverse.dropWhile wsChar) = []
    · rw [hX]; rfl
    · rw [getLast?_dropWhile wsChar _ hX, List.getLast?_reverse]
      exact head?_dropWhile_all wsChar l
  · rw [List.getLast?_reverse]
    exact head?_dropWhile_all wsChar _

theorem jsTrim_eq_self (l : Str) (h : trimmed l = true) : jsTrim l = l := by
  unfold trimmed at h
  rcases Bool.and_eq_true_iff.mp h with ⟨h1, h2⟩
  unfold jsTrim
  rw [dropWhile_eq_self_of_head l h1]
  rw [dropWhile_eq_self_of_head l.reverse (by rw [List.head?_reverse]; exact h2)]
  exact List.reverse_reverse l

theorem trimmed_of_jsTrim_eq (l : Str) (h : jsTrim l = l) : trimmed l = true := by
  rw [← h]
  exact trimmed_jsTrim l

theorem jsTrim_cons_ws (a : Char) (l : Str) (h : wsChar a = true) :
    jsTrim (a :: l) = jsTrim l := by
  unfold jsTrim
  rw [List.dropWhile_cons_of_pos h]

theorem jsTrim_idem (l : Str) : jsTrim (jsTrim l) = jsTrim l :=
  jsTrim_eq_self _ (trimmed_jsTrim l)

theorem trimmed_jsLower (l : Str) (h : trimmed l = true) : trimmed (jsLower l) = true := by
  unfold trimmed at h ⊢
  unfold jsLower
  rcases Bool.and_eq_true_iff.mp h with ⟨h1, h2⟩
  apply Bool.and_eq_true_iff.mpr
  constructor
  · rw [List.head?_map]
    cases hh : l.head? with
    | none => rfl
    | some x =>
      rw [hh] at h1
      simp only [Option.map_some', Option.all_some]
      simp only [Option.all_some] at h1
      rw [wsChar_toLower]
      exact h1
  · rw [List.getLast?_map]
    cases hh : l.getLast? with
    | none => rfl
    | some x =>
      rw [hh] at h2
      simp only [Option.map_some', Option.all_some]
      simp only [Option.all_some] at h2
      rw [wsChar_toLower]
      exact h2

theorem getLast?_append_of_ne_nil {α : Type} (t u : List α) (hu : u ≠ []) :
    (t ++ u).getLast? = u.getLast? := by
  rw [← List.head?_reverse, List.reverse_append, ← List.head?_reverse]
  cases hr : u.reverse with
  | nil => exact absurd (by simpa using hr) hu
  | cons a r => rfl

theorem trimmed_append (t u : Str) (h1 : trimmed t = true) (ht : t ≠ [])
    (h2 : trimmed u = true) (hu : u ≠ []) : trimmed (t ++ u) = true := by
  unfold trimmed at h1 h2 ⊢
  rcases Bool.and_eq_true_iff.mp h1 with ⟨h1a, _⟩
  rcases Bool.and_eq_true_iff.mp h2 with ⟨_, h2b⟩
  apply Bool.and_eq_true_iff.mpr
  constructor
  · cases t with
    | nil => exact absurd rfl ht
    | cons a r =>
      simp only [List.cons_append, List.head?_cons]
      simpa using h1a
  · rw [getLast?_append_of_ne_nil t u hu]
    exact h2b

theorem mem_of_mem_jsTrim (c : Char) (l : Str) (h : c ∈ jsTrim l) : c ∈ l := by
  unfold jsTrim at h
  rw [List.mem_reverse] at h
  have h2 := (List.dropWhile_sublist wsChar).subset h
  rw [List.mem_reverse] at h2
  exact (List.dropWhile_sublist wsChar).subset h2

theorem jsLower_jsLower (l : Str) : jsLower (jsLower l) = jsLower l := by
  unfold jsLower
  rw [List.map_map]
  apply List.map_congr_left
  intro a _
  exact toLower_toLower a

theorem not_mem_comma_jsLower (l : Str) (h : ',' ∉ l) : ',' ∉ jsLower l := by
  unfold jsLower
  intro hc
  rcases List.mem_map.mp hc with ⟨x, hx, hlx⟩
  exact h ((toLower_eq_comma x hlx) ▸ hx)

/-! ### GoodToken facts -/

theorem goodToken_cleanTokens (s : Str) : ∀ t ∈ cleanTokens s, GoodToken t := by
  intro t ht
  unfold cleanTokens at ht
  rw [List.mem_filter] at ht
  rcases ht with ⟨hmem, hne⟩
  rcases List.mem_map.mp hmem with ⟨x, hx, hlx⟩
  have hcomma : ',' ∉ x := not_mem_of_mem_splitOnChar ',' s x hx
  refine ⟨?_, ?_, ?_, ?_⟩
  · intro hnil
    rw [hnil] at hne
    simp at hne
  · rw [← hlx]
    apply not_mem_comma_jsLower
    intro hc
    exact hcomma (mem_of_mem_jsTrim ',' x hc)
  · rw [← hlx]
    exact jsTrim_eq_self _ (trimmed_jsLower _ (trimmed_jsTrim x))
  · rw [← hlx]
    exact jsLower_jsLower _

theorem goodToken_concept (t : Str) (h : GoodToken t) :
    GoodToken (t ++ str "_concept") := by
  rcases h with ⟨hne, hcomma, htrim, hlow⟩
  refine ⟨?_, ?_, ?_, ?_⟩
  · simp only [ne_eq, List.append_eq_nil]
    intro hboth
    exact hne hboth.1
  · intro hc
    rcases List.mem_append.mp hc with h1 | h2
    · exact hcomma h1
    · revert h2
      decide
  · apply jsTrim_eq_self
    apply trimmed_append
    · exact trimmed_of_jsTrim_eq t htrim
    · exact hne
    · decide
    · decide
  · unfold jsLower
    rw [List.map_append]
    unfold jsLower at hlow
    rw [hlow]
    have hmap : List.map Char.toLower (str "_concept") = str "_concept" := by decide
    rw [hmap]

/-! ### padLoop and keywords49 facts -/

theorem padLoop_closed (n : Nat) (hn : 0 < n) :
    ∀ (fuel i : Nat) (kw : List Str), n ≤ kw.length → 49 ≤ kw.length + fuel →
      padLoop n i fuel kw =
        kw ++ (List.range (49 - kw.length)).map
          (fun j => kw.getD ((i + j) % n) [] ++ str "_concept") := by
  intro fuel
  induction fuel with
  | zero =>
    intro i kw hle hf
    have h0 : 49 - kw.length = 0 := by omega
    simp [padLoop, h0]
  | succ fuel' ih =>
    intro i kw hle hf
    simp only [padLoop]
    split_ifs with h
    · have hlen' : (kw ++ [kw.getD (i % n) [] ++ str "_concept"]).length = kw.length + 1 := by
        simp
      have hrec := ih (i + 1) (kw ++ [kw.getD (i % n) [] ++ str "_concept"])
        (by rw [hlen']; omega) (by rw [hlen']; omega)
      rw [hrec, hlen']
      have hstep : 49 - kw.length = (49 - (kw.length + 1)) + 1 := by omega
      rw [hstep, List.range_succ_eq_map]
      rw [List.map_cons, List.map_map]
      have hf0 : kw.getD ((i + 0) % n) [] ++ str "_concept"
          = kw.getD (i % n) [] ++ str "_concept" := by
        rw [Nat.add_zero]
      rw [hf0]
      rw [List.append_cons kw _ ((List.range (49 - (kw.length + 1))).map _)]
      congr 1
      apply List.map_congr_left
      intro j _
      simp only [Function.comp_apply]
      have hidx : (i + (j + 1)) % n = (i + 1 + j) % n := by
        have : i + (j + 1) = i + 1 + j := by omega
        rw [this]
      rw [hidx]
      have hlt : (i + 1 + j) % n < kw.length := lt_of_lt_of_le (Nat.mod_lt _ hn) hle
      rw [List.getD_append _ _ _ _ hlt]
    · have h0 : 49 - kw.length = 0 := by omega
      simp [h0]

theorem keywords49_eq_pad (kw : List Str) (hn : 0 < kw.length) (hlt : kw.length < 49) :
    keywords49 kw =
      kw ++ (List.range (49 - kw.length)).map
        (fun j => kw.getD (j % kw.length) [] ++ str "_concept") := by
  unfold keywords49
  rw [if_neg (by omega), if_pos (by simp only [Bool.and_eq_true, decide_eq_true_eq]; omega)]
  rw [padLoop_closed kw.length hn 49 0 kw (le_refl _) (by omega)]
  congr 1
  apply List.map_congr_left
  intro j _
  rw [Nat.zero_add]

theorem keywords49_take_of_gt (kw : List Str) (h : kw.length > 49) :
    keywords49 kw = kw.take 49 := by
  unfold keywords49
  rw [if_pos h]

theorem keywords49_eq_self (kw : List Str) (h : kw.length = 49 ∨ kw = []) :
    keywords49 kw = kw := by
  unfold keywords49
  rcases h with h | h
  · rw [if_neg (by omega), if_neg (by simp only [Bool.and_eq_true, decide_eq_true_eq]; omega)]
  · subst h
    rfl

theorem keywords49_length (kw : List Str) (h : kw ≠ []) :
    (keywords49 kw).length = 49 := by
  have hpos : 0 < kw.length := List.length_pos.mpr h
  by_cases h1 : kw.length > 49
  · rw [keywords49_take_of_gt kw h1]
    simp
    omega
  · by_cases h2 : kw.length < 49
    · rw [keywords49_eq_pad kw hpos h2]
      simp
      omega
    · rw [keywords49_eq_self kw (Or.inl (by omega))]
      omega

theorem getD_mem_of_lt {α : Type} (l : List α) (i : Nat) (d : α) (h : i < l.length) :
    l.getD i d ∈ l := by
  rw [List.getD_eq_getElem l d h]
  exact List.getElem_mem _

theorem mem_keywords49 (kw : List Str) (x : Str) (hx : x ∈ keywords49 kw) :
    x ∈ kw ∨ ∃ t, t ∈ kw ∧ x = t ++ str "_concept" := by
  by_cases hnil : kw = []
  · subst hnil
    rw [keywords49_eq_self [] (Or.inr rfl)] at hx
    exact Or.inl hx
  · have hpos : 0 < kw.length := List.length_pos.mpr hnil
    by_cases h1 : kw.length > 49
    · rw [keywords49_take_of_gt kw h1] at hx
      exact Or.inl (List.mem_of_mem_take hx)
    · by_cases h2 : kw.length < 49
      · rw [keywords49_eq_pad kw hpos h2] at hx
        rcases List.mem_append.mp hx with hl | hr
        · exact Or.inl hl
        · rcases List.mem_map.mp hr with ⟨j, _, hj⟩
          refine Or.inr ⟨kw.getD (j % kw.length) [], ?_, hj.symm⟩
          exact getD_mem_of_lt kw _ [] (Nat.mod_lt _ hpos)
      · rw [keywords49_eq_self kw (Or.inl (by omega))] at hx
        exact Or.inl hx

theorem keywords49_getD_orig (kw : List Str) (hn : 0 < kw.length) (hlt : kw.length < 49)
    (i : Nat) (hi : i < kw.length) : (keywords49 kw).getD i [] = kw.getD i [] := by
  rw [keywords49_eq_pad kw hn hlt]
  exact List.getD_append _ _ _ _ hi

theorem keywords49_getD_pad (kw : List Str) (hn : 0 < kw.length) (hlt : kw.length < 49)
    (i : Nat) (hi : kw.length + i < 49) :
    (keywords49 kw).getD (kw.length + i) [] =
      kw.getD (i % kw.length) [] ++ str "_concept" := by
  rw [keywords49_eq_pad kw hn hlt]
  rw [List.getD_append_right _ _ _ _ (by omega)]
  have hidx : kw.length + i - kw.length = i := by omega
  rw [hidx]
  rw [List.getD_eq_getElem?_getD, List.getElem?_map, List.getElem?_range (by omega : i < 49 - kw.length)]
  rfl

/-! ### Join and split round trip -/

theorem map_jsTrim_splitOnChar_joinComma (kw : List Str)
    (h : ∀ t ∈ kw, ',' ∉ t ∧ jsTrim t = t) (hne : kw ≠ []) :
    (splitOnChar ',' (joinComma kw)).map jsTrim = kw := by
  induction kw with
  | nil => exact absurd rfl hne
  | cons t rest ih =>
    rcases h t (List.mem_cons_self t rest) with ⟨hct, htt⟩
    cases rest with
    | nil =>
      show (splitOnChar ',' (joinComma [t])).map jsTrim = [t]
      have hj : joinComma [t] = t := rfl
      rw [hj, splitOnChar_not_mem ',' t hct, List.map_singleton, htt]
    | cons u rest' =>
      have hj : joinComma (t :: u :: rest') = t ++ ',' :: ' ' :: joinComma (u :: rest') := by
        show t ++ str ", " ++ joinComma (u :: rest') = _
        rw [List.append_assoc]
        rfl
      rw [hj, splitOnChar_append ',' t _ hct]
      have hS := ih (fun x hx => h x (List.mem_cons_of_mem t hx)) (by simp)
      have hSne := splitOnChar_ne_nil ',' (joinComma (u :: rest'))
      rw [splitOnChar_cons_ne ',' ' ' _ (by decide)]
      rw [List.map_cons, List.map_cons]
      rw [jsTrim_cons_ws ' ' _ (by decide)]
      rw [htt]
      have hcons := cons_headI_tail' (splitOnChar ',' (joinComma (u :: rest'))) hSne
      rw [← hcons, List.map_cons] at hS
      rcases List.cons.injEq _ _ _ _ ▸ hS with ⟨h1, h2⟩
      rw [h1, h2]

theorem cleanTokens_joinComma (kw : List Str) (h : ∀ t ∈ kw, GoodToken t) :
    cleanTokens (joinComma kw) = kw := by
  cases kw with
  | nil => decide
  | cons t rest =>
    unfold cleanTokens
    have hmap : (splitOnChar ',' (joinComma (t :: rest))).map
        (fun x => jsLower (jsTrim x)) = t :: rest := by
      have h1 : (splitOnChar ',' (joinComma (t :: rest))).map
          (fun x => jsLower (jsTrim x)) =
          ((splitOnChar ',' (joinComma (t :: rest))).map jsTrim).map jsLower := by
        rw [List.map_map]
        rfl
      rw [h1]
      rw [map_jsTrim_splitOnChar_joinComma (t :: rest)
        (fun x hx => ⟨(h x hx).2.1, (h x hx).2.2.1⟩) (by simp)]
      have hid : List.map jsLower (t :: rest) = List.map id (t :: rest) :=
        List.map_congr_left (fun x hx => (h x hx).2.2.2)
      rw [hid, List.map_id]
    rw [hmap]
    apply List.filter_eq_self.mpr
    intro x hx
    have hxe := (h x hx).1
    simp only [Bool.not_eq_true']
    rw [List.isEmpty_eq_false]
    exact hxe

theorem keywordTokens_joinComma (kw : List Str) (h : ∀ t ∈ kw, GoodToken t)
    (hne : kw ≠ []) : keywordTokens (joinComma kw) = kw :=
  map_jsTrim_splitOnChar_joinComma kw (fun t ht => ⟨(h t ht).2.1, (h t ht).2.2.1⟩) hne

/-! ### sanitizeMetadata characterization -/

theorem sanitizeMetadata_ok_elim (data : List (Str × Json)) (p : Platform) (m : Metadata)
    (h : sanitizeMetadata data p = .ok m) :
    ∃ ks ts ds, asStr (kwFieldValue data) = .ok ks ∧
      asStr (titleFieldValue data) = .ok ts ∧
      asStr (descFieldValue data) = .ok ds ∧
      m = mkMeta p data (keywords49 (cleanTokens ks)) ts ds := by
  unfold sanitizeMetadata at h
  cases h1 : asStr (kwFieldValue data) with
  | error e => rw [h1] at h; cases h
  | ok ks =>
    rw [h1] at h
    cases h2 : asStr (titleFieldValue data) with
    | error e => rw [h2] at h; cases h
    | ok ts =>
      rw [h2] at h
      cases h3 : asStr (descFieldValue data) with
      | error e => rw [h3] at h; cases h
      | ok ds =>
        rw [h3] at h
        cases h
        exact ⟨ks, ts, ds, rfl, rfl, rfl, rfl⟩

theorem sanitizeMetadata_ok_intro (data : List (Str × Json)) (p : Platform)
    (ks ts ds : Str)
    (h1 : asStr (kwFieldValue data) = .ok ks)
    (h2 : asStr (titleFieldValue data) = .ok ts)
    (h3 : asStr (descFieldValue data) = .ok ds) :
    sanitizeMetadata data p = .ok (mkMeta p data (keywords49 (cleanTokens ks)) ts ds) := by
  unfold sanitizeMetadata
  rw [h1, h2, h3]

/-! ### jsOr and asStr helpers -/

theorem jsOr_none (fb : Json) : jsOr none fb = fb := rfl

theorem jsOr_some_truthy (j fb : Json) (h : jsTruthy j = true) : jsOr (some j) fb = j := by
  show (if jsTruthy j = true then j else fb) = j
  rw [if_pos h]

theorem jsOr_some_falsy (j fb : Json) (h : jsTruthy j = false) : jsOr (some j) fb = fb := by
  show (if jsTruthy j = true then j else fb) = fb
  rw [if_neg (by rw [h]; exact Bool.false_ne_true)]

theorem asStr_jsOr_inv (v : Option Json) (fb s : Str)
    (h : asStr (jsOr v (.jstr fb)) = .ok s) : s = fb ∨ v = some (.jstr s) := by
  cases v with
  | none =>
    rw [jsOr_none] at h
    cases h
    exact Or.inl rfl
  | some j =>
    by_cases ht : jsTruthy j = true
    · rw [jsOr_some_truthy j _ ht] at h
      cases j with
      | jstr s' => cases h; exact Or.inr rfl
      | jnull => cases h
      | jbool b => cases h
      | jnum n => cases h
      | jarr a => cases h
      | jobj o => cases h
    · rw [jsOr_some_falsy j _ (Bool.not_eq_true _ ▸ ht)] at h
      cases h
      exact Or.inl rfl

theorem asStr_jsOr_ok_ne_nil (v : Option Json) (fb s : Str) (hfb : fb ≠ [])
    (h : asStr (jsOr v (.jstr fb)) = .ok s) : s ≠ [] := by
  cases v with
  | none =>
    rw [jsOr_none] at h
    cases h
    exact hfb
  | some j =>
    by_cases ht : jsTruthy j = true
    · rw [jsOr_some_truthy j _ ht] at h
      cases j with
      | jstr s' =>
        cases h
        unfold jsTruthy at ht
        simp only [Bool.not_eq_true'] at ht
        rw [List.isEmpty_eq_false] at ht
        exact ht
      | jnull => cases h
      | jbool b => cases h
      | jnum n => cases h
      | jarr a => cases h
      | jobj o => cases h
    · rw [jsOr_some_falsy j _ (Bool.not_eq_true _ ▸ ht)] at h
      cases h
      exact hfb

theorem asStr_jsOr_str_self (x : Str) :
    asStr (jsOr (some (Json.jstr x)) (.jstr [])) = .ok x := by
  by_cases hx : x = []
  · subst hx; rfl
  · rw [jsOr_some_truthy]
    · rfl
    · unfold jsTruthy
      simp only [Bool.not_eq_true']
      rw [List.isEmpty_eq_false]
      exact hx

/-! ### Further structural helpers -/

theorem jsTruthy_jstr_ne (x : Str) (h : x ≠ []) : jsTruthy (Json.jstr x) = true := by
  unfold jsTruthy
  simp only [Bool.not_eq_true']
  rw [List.isEmpty_eq_false]
  exact h

theorem asStr_jsOr_ok_of_stringly (data : List (Str × Json)) (key fb : Str)
    (h : stringlyTyped data key = true) :
    ∃ s, asStr (jsOr (getField data key) (.jstr fb)) = .ok s := by
  unfold stringlyTyped at h
  cases hf : getField data key with
  | none => exact ⟨fb, rfl⟩
  | some j =>
    rw [hf] at h
    have h' : (!jsTruthy j || j.isStr) = true := h
    by_cases htr : jsTruthy j = true
    · rw [htr] at h'
      simp only [Bool.not_true, Bool.false_or] at h'
      cases j with
      | jstr s => exact ⟨s, by rw [jsOr_some_truthy _ _ htr]; rfl⟩
      | jnull => cases h'
      | jbool b => cases h'
      | jnum n => cases h'
      | jarr a => cases h'
      | jobj o => cases h'
    · refine ⟨fb, ?_⟩
      rw [jsOr_some_falsy _ _ (Bool.not_eq_true _ ▸ htr)]
      rfl

theorem goodToken_keywords49 (s : Str) :
    ∀ t ∈ keywords49 (cleanTokens s), GoodToken t := by
  intro t ht
  rcases mem_keywords49 _ t ht with hl | ⟨u, hu, hconc⟩
  · exact goodToken_cleanTokens s t hl
  · rw [hconc]
    exact goodToken_concept u (goodToken_cleanTokens s u hu)

theorem catPick_mem (v : Option Json) (i : Nat) (h : i < 27) :
    catPick v i ∈ SHUTTERSTOCK_CATEGORIES := by
  have hlen : SHUTTERSTOCK_CATEGORIES.length = 27 := by decide
  unfold catPick
  cases v with
  | none => exact getD_mem_of_lt _ _ _ (by omega)
  | some j =>
    cases j with
    | jstr c =>
      show (if c ∈ SHUTTERSTOCK_CATEGORIES then c else SHUTTERSTOCK_CATEGORIES.getD i []) ∈
        SHUTTERSTOCK_CATEGORIES
      by_cases hc : c ∈ SHUTTERSTOCK_CATEGORIES
      · rw [if_pos hc]; exact hc
      · rw [if_neg hc]; exact getD_mem_of_lt _ _ _ (by omega)
    | jnull => exact getD_mem_of_lt _ _ _ (by omega)
    | jbool b => exact getD_mem_of_lt _ _ _ (by omega)
    | jnum n => exact getD_mem_of_lt _ _ _ (by omega)
    | jarr a => exact getD_mem_of_lt _ _ _ (by omega)
    | jobj o => exact getD_mem_of_lt _ _ _ (by omega)

theorem take_idem {α : Type} (n : Nat) (l : List α) : (l.take n).take n = l.take n := by
  rw [List.take_take, min_self]

theorem take_ne_nil_of {α : Type} (n : Nat) (l : List α) (hn : n ≠ 0) (hl : l ≠ []) :
    l.take n ≠ [] := by
  cases l with
  | nil => exact absurd rfl hl
  | cons a t =>
    cases n with
    | zero => exact absurd rfl hn
    | succ k => simp

theorem mkMeta_title (p : Platform) (data : List (Str × Json)) (kw : List Str)
    (ts ds : Str) : (mkMeta p data kw ts ds).title = ts.take 120 := rfl

theorem mkMeta_description (p : Platform) (data : List (Str × Json)) (kw : List Str)
    (ts ds : Str) : (mkMeta p data kw ts ds).description = ds.take 200 := rfl

theorem mkMeta_keywords (p : Platform) (data : List (Str × Json)) (kw : List Str)
    (ts ds : Str) : (mkMeta p data kw ts ds).keywords = joinComma kw := rfl

theorem mkMeta_mainTag (p : Platform) (data : List (Str × Json)) (kw : List Str)
    (ts ds : Str) : (mkMeta p data kw ts ds).mainTag =
      jsOr (getField data (str "mainTag"))
        (jsOr (kw.head?.map Json.jstr)
          (.jstr (if p = Platform.Teepublic then str "graphic" else []))) := rfl

theorem mkMeta_category1 (p : Platform) (data : List (Str × Json)) (kw : List Str)
    (ts ds : Str) : (mkMeta p data kw ts ds).category1 =
      if p = Platform.Shutterstock
        then some (catPick (getField data (str "category1")) 0) else none := rfl

theorem mkMeta_category2 (p : Platform) (data : List (Str × Json)) (kw : List Str)
    (ts ds : Str) : (mkMeta p data kw ts ds).category2 =
      if p = Platform.Shutterstock
        then some (catPick (getField data (str "category2")) 1) else none := rfl

theorem getField_metaToObj_title (m : Metadata) :
    getField (metaToObj m) (str "title") = some (.jstr m.title) := rfl

theorem getField_metaToObj_description (m : Metadata) :
    getField (metaToObj m) (str "description") = some (.jstr m.description) := rfl

theorem getField_metaToObj_keywords (m : Metadata) :
    getField (metaToObj m) (str "keywords") = some (.jstr m.keywords) := rfl

theorem getField_metaToObj_mainTag (m : Metadata) :
    getField (metaToObj m) (str "mainTag") = some m.mainTag := rfl

theorem getField_metaToObj_category1 (m : Metadata) (c : Str)
    (h : m.category1 = some c) :
    getField (metaToObj m) (str "category1") = some (.jstr c) := by
  unfold metaToObj
  rw [h]
  rfl

/-! ### Claims -/

/-- Claim C8: for every generation request with the chat (groq) engine and an
empty (or absent) credential string, the call fails with MissingCredential
before any network attempt: the request trace stays empty. -/
theorem groq_missing_credential_no_network (asset : Asset) (platform : Platform)
    (net : GroqRequest → GroqNetResult) :
    generateAssetMetadataGroq asset platform (some []) net =
      (.error .missingCredential, []) ∧
    generateAssetMetadataGroq asset platform none net =
      (.error .missingCredential, []) :=
  ⟨rfl, rfl⟩

/-- Claim C9: the chat (groq) adapter path ignores image data entirely: two
assets agreeing on filename and detected type produce the identical request
trace and the identical result, whatever their binary content and MIME type
and whatever the network answers. -/
theorem groq_image_noninterference (a1 a2 : Asset) (platform : Platform)
    (key : Option Str) (net : GroqRequest → GroqNetResult)
    (hname : a1.name = a2.name) (htype : a1.type = a2.type) :
    generateAssetMetadataGroq a1 platform key net =
      generateAssetMetadataGroq a2 platform key net := by
  unfold generateAssetMetadataGroq
  rw [hname, htype]

/-- Witness for claim C9: two concrete assets with the same name and type but
different bytes and MIME types generate identically. -/
theorem groq_image_noninterference_witness :
    generateAssetMetadataGroq
        ⟨str "a.png", AssetType.Photo, [0, 1, 2], str "image/png"⟩
        Platform.Shutterstock (some (str "gsk_live_key")) (fun _ => .notOk (str "x")) =
      generateAssetMetadataGroq
        ⟨str "a.png", AssetType.Photo, [9, 9, 9, 9], str "image/jpeg"⟩
        Platform.Shutterstock (some (str "gsk_live_key")) (fun _ => .notOk (str "x")) :=
  groq_image_noninterference _ _ _ _ _ rfl rfl

/-- Claim C4 counterexample: a vision (gemini) call that returns no text does
NOT fail with a ProviderError; the adapter substitutes the empty-object
literal and returns the fully-fallback Metadata. -/
theorem gemini_no_text_returns_metadata :
    generateAssetMetadataGemini (GeminiCallResult.returned none) Platform.AdobeStock =
      .ok { title := str "Untitled Stock Asset"
            description := str "High quality commercial stock asset for creative projects."
            keywords := []
            mainTag := Json.jstr []
            category1 := none
            category2 := none } := rfl

/-- Claim C4 (amended): if the vision (gemini) call raises, the error
propagates as a ProviderError carrying the message; if the call returns no
text (absent or empty), the adapter parses the empty-object literal and
returns the sanitized fallback Metadata instead of failing. -/
theorem gemini_error_handling (msg : Str) (p : Platform) :
    generateAssetMetadataGemini (GeminiCallResult.raised msg) p =
      .error (.providerError msg) ∧
    generateAssetMetadataGemini (GeminiCallResult.returned none) p =
      sanitizeMetadata [] p ∧
    generateAssetMetadataGemini (GeminiCallResult.returned (some [])) p =
      sanitizeMetadata [] p :=
  ⟨rfl, rfl, rfl⟩

/-- Claim C2 counterexample: sanitizeMetadata is not total on arbitrary JSON
objects: a truthy non-string keywords field (the number 5) raises a
TypeError (`(5).split` is not a function) instead of returning a Metadata. -/
theorem sanitize_wrong_type_throws :
    sanitizeMetadata [(str "keywords", Json.jnum 5)] Platform.AdobeStock =
      .error .typeError := rfl

/-- Claim C2 (amended): sanitizeMetadata never throws and returns a Metadata
for every JSON object whose keywords, title and description fields are
strings whenever present and truthy; absent or falsy fields (of any type)
take that field's fallback path, and the other three fields never throw. -/
theorem sanitize_total_on_stringly (data : List (Str × Json)) (p : Platform)
    (hk : stringlyTyped data (str "keywords") = true)
    (ht : stringlyTyped data (str "title") = true)
    (hd : stringlyTyped data (str "description") = true) :
    ∃ m, sanitizeMetadata data p = .ok m := by
  obtain ⟨ks, hks⟩ := asStr_jsOr_ok_of_stringly data (str "keywords") [] hk
  obtain ⟨ts, hts⟩ := asStr_jsOr_ok_of_stringly data (str "title")
    (str "Untitled Stock Asset") ht
  obtain ⟨ds, hds⟩ := asStr_jsOr_ok_of_stringly data (str "description")
    (str "High quality commercial stock asset for creative projects.") hd
  exact ⟨_, sanitizeMetadata_ok_intro data p ks ts ds hks hts hds⟩

/-- Witness for claim C2 (amended): an object with a falsy wrong-typed title
(the number 0) and a truthy non-string mainTag still sanitizes fine. -/
theorem sanitize_total_on_stringly_witness :
    ∃ m, sanitizeMetadata
        [(str "title", Json.jnum 0), (str "mainTag", Json.jbool true)]
        Platform.Teepublic = .ok m :=
  sanitize_total_on_stringly _ _ (by decide) (by decide) (by decide)

/-- Claim C5 counterexample: a present but empty provider title does not
yield the empty title truncated (which would be empty); the falsy check
`data.title || fallback` routes it to the fixed fallback instead. -/
theorem sanitize_empty_title_not_truncated :
    sanitizeMetadata [(str "title", Json.jstr [])] Platform.AdobeStock =
      .ok { title := str "Untitled Stock Asset"
            description := str "High quality commercial stock asset for creative projects."
            keywords := []
            mainTag := Json.jstr []
            category1 := none
            category2 := none } ∧
    str "Untitled Stock Asset" ≠ ([] : Str).take 120 :=
  ⟨rfl, by decide⟩

/-- Claim C5 (amended): the normalized title equals the provider's title
string when present and non-empty (otherwise the fixed fallback
"Untitled Stock Asset"), truncated to its first 120 characters; for a
130-character provider title the normalized title has length exactly 120. -/
theorem sanitize_title_spec (data : List (Str × Json)) (p : Platform) (m : Metadata)
    (h : sanitizeMetadata data p = .ok m) :
    (∀ t, getField data (str "title") = some (Json.jstr t) → t ≠ [] →
        m.title = t.take 120 ∧ (t.length = 130 → m.title.length = 120)) ∧
    (getField data (str "title") = none → m.title = str "Untitled Stock Asset") := by
  obtain ⟨ks, ts, ds, h1, h2, h3, hm⟩ := sanitizeMetadata_ok_elim data p m h
  subst hm
  constructor
  · intro t hf hne
    have hfv : titleFieldValue data = Json.jstr t := by
      unfold titleFieldValue
      rw [hf, jsOr_some_truthy _ _ (jsTruthy_jstr_ne t hne)]
    rw [hfv] at h2
    have hts : t = ts := by cases h2; rfl
    subst hts
    refine ⟨mkMeta_title _ _ _ _ _, ?_⟩
    intro h130
    rw [mkMeta_title, List.length_take, h130]
    decide
  · intro hf
    have hfv : titleFieldValue data = Json.jstr (str "Untitled Stock Asset") := by
      unfold titleFieldValue
      rw [hf, jsOr_none]
    rw [hfv] at h2
    have hts : str "Untitled Stock Asset" = ts := by cases h2; rfl
    rw [mkMeta_title, ← hts]
    decide

set_option maxRecDepth 8000

/-- Witness for claim C5 (amended): a 130-character title is cut to its
first 120 characters and has length exactly 120. -/
theorem sanitize_title_spec_witness :
    exceptOkHolds
      (sanitizeMetadata [(str "title", Json.jstr (List.replicate 130 'a'))]
        Platform.Dreamstime)
      (fun m => m.title = (List.replicate 130 'a').take 120 ∧ m.title.length = 120) := by
  have hm : sanitizeMetadata [(str "title", Json.jstr (List.replicate 130 'a'))]
      Platform.Dreamstime =
      .ok (mkMeta Platform.Dreamstime
        [(str "title", Json.jstr (List.replicate 130 'a'))]
        (keywords49 (cleanTokens [])) (List.replicate 130 'a')
        (str "High quality commercial stock asset for creative projects.")) := rfl
  have happ := (sanitize_title_spec _ _ _ hm).1 (List.replicate 130 'a') rfl (by decide)
  exact ⟨happ.1, happ.2 (by decide)⟩

/-- Claim C7: on the dual-category (Shutterstock) marketplace the normalizer
keeps a provider category only when it is literally a member of the fixed
set, substituting the set's 1st entry for category1 and 2nd entry for
category2 otherwise (also when the field is absent or not a string); on
every other marketplace both fields are undefined. -/
theorem sanitize_categories (data : List (Str × Json)) (p : Platform) (m : Metadata)
    (h : sanitizeMetadata data p = .ok m) :
    (p = Platform.Shutterstock →
      (∀ c, getField data (str "category1") = some (Json.jstr c) →
        c ∈ SHUTTERSTOCK_CATEGORIES → m.category1 = some c) ∧
      (∀ c, getField data (str "category1") = some (Json.jstr c) →
        c ∉ SHUTTERSTOCK_CATEGORIES → m.category1 = some (str "Abstract")) ∧
      ((∀ c, getField data (str "category1") ≠ some (Json.jstr c)) →
        m.category1 = some (str "Abstract")) ∧
      (∀ c, getField data (str "category2") = some (Json.jstr c) →
        c ∈ SHUTTERSTOCK_CATEGORIES → m.category2 = some c) ∧
      (∀ c, getField data (str "category2") = some (Json.jstr c) →
        c ∉ SHUTTERSTOCK_CATEGORIES → m.category2 = some (str "Animals/Wildlife")) ∧
      ((∀ c, getField data (str "category2") ≠ some (Json.jstr c)) →
        m.category2 = some (str "Animals/Wildlife"))) ∧
    (p ≠ Platform.Shutterstock → m.category1 = none ∧ m.category2 = none) := by
  obtain ⟨ks, ts, ds, h1, h2, h3, hm⟩ := sanitizeMetadata_ok_elim data p m h
  subst hm
  constructor
  · intro hp
    subst hp
    refine ⟨?_, ?_, ?_, ?_, ?_, ?_⟩
    · intro c hf hc
      rw [mkMeta_category1, if_pos rfl, hf]
      show some (if c ∈ SHUTTERSTOCK_CATEGORIES then c else SHUTTERSTOCK_CATEGORIES.getD 0 [])
        = some c
      rw [if_pos hc]
    · intro c hf hc
      rw [mkMeta_category1, if_pos rfl, hf]
      show some (if c ∈ SHUTTERSTOCK_CATEGORIES then c else SHUTTERSTOCK_CATEGORIES.getD 0 [])
        = some (str "Abstract")
      rw [if_neg hc]
      rfl
    · intro hno
      rw [mkMeta_category1, if_pos rfl]
      cases hf : getField data (str "category1") with
      | none => rfl
      | some j =>
        cases j with
        | jstr c => exact absurd hf (hno c)
        | jnull => rfl
        | jbool b => rfl
        | jnum n => rfl
        | jarr a => rfl
        | jobj o => rfl
    · intro c hf hc
      rw [mkMeta_category2, if_pos rfl, hf]
      show some (if c ∈ SHUTTERSTOCK_CATEGORIES then c else SHUTTERSTOCK_CATEGORIES.getD 1 [])
        = some c
      rw [if_pos hc]
    · intro c hf hc
      rw [mkMeta_category2, if_pos rfl, hf]
      show some (if c ∈ SHUTTERSTOCK_CATEGORIES then c else SHUTTERSTOCK_CATEGORIES.getD 1 [])
        = some (str "Animals/Wildlife")
      rw [if_neg hc]
      rfl
    · intro hno
      rw [mkMeta_category2, if_pos rfl]
      cases hf : getField data (str "category2") with
      | none => rfl
      | some j =>
        cases j with
        | jstr c => exact absurd hf (hno c)
        | jnull => rfl
        | jbool b => rfl
        | jnum n => rfl
        | jarr a => rfl
        | jobj o => rfl
  · intro hp
    rw [mkMeta_category1, if_neg hp, mkMeta_category2, if_neg hp]
    exact ⟨rfl, rfl⟩

/-- Witness for claim C7: category1 = "Bogus" on Shutterstock normalizes to
the set's first entry and an absent category2 to its second entry; on Adobe
Stock both categories are absent. -/
theorem sanitize_categories_witness :
    exceptOkHolds
      (sanitizeMetadata [(str "category1", Json.jstr (str "Bogus"))] Platform.Shutterstock)
      (fun m => m.category1 = some (str "Abstract") ∧
        m.category2 = some (str "Animals/Wildlife")) ∧
    exceptOkHolds (sanitizeMetadata [] Platform.AdobeStock)
      (fun m => m.category1 = none ∧ m.category2 = none) := by
  constructor
  · have hm : sanitizeMetadata [(str "category1", Json.jstr (str "Bogus"))]
        Platform.Shutterstock =
        .ok (mkMeta Platform.Shutterstock [(str "category1", Json.jstr (str "Bogus"))]
          (keywords49 (cleanTokens [])) (str "Untitled Stock Asset")
          (str "High quality commercial stock asset for creative projects.")) := rfl
    have happ := (sanitize_categories _ _ _ hm).1 rfl
    exact ⟨happ.2.1 (str "Bogus") rfl (by decide),
      happ.2.2.2.2.2 (fun c hf => Option.noConfusion hf)⟩
  · have hm : sanitizeMetadata [] Platform.AdobeStock =
        .ok (mkMeta Platform.AdobeStock [] (keywords49 (cleanTokens []))
          (str "Untitled Stock Asset")
          (str "High quality commercial stock asset for creative projects.")) := rfl
    exact (sanitize_categories _ _ _ hm).2 (by decide)

theorem sanitize_keywords_char (data : List (Str × Json)) (p : Platform) (m : Metadata)
    (ks : Str) (hks : asStr (kwFieldValue data) = .ok ks)
    (h : sanitizeMetadata data p = .ok m) :
    m.keywords = joinComma (keywords49 (cleanTokens ks)) := by
  obtain ⟨ks', ts, ds, h1, h2, h3, hm⟩ := sanitizeMetadata_ok_elim data p m h
  have hkss : ks' = ks := by
    rw [h1] at hks
    cases hks
    rfl
  subst hkss
  rw [hm, mkMeta_keywords]

theorem keywords49_ne_nil (s : Str) (hne : cleanTokens s ≠ []) :
    keywords49 (cleanTokens s) ≠ [] := by
  intro hnil
  have hlen := keywords49_length (cleanTokens s) hne
  rw [hnil] at hlen
  cases hlen

theorem keywordTokens_of_sanitize (data : List (Str × Json)) (p : Platform) (m : Metadata)
    (ks : Str) (hks : asStr (kwFieldValue data) = .ok ks)
    (h : sanitizeMetadata data p = .ok m) (hne : cleanTokens ks ≠ []) :
    keywordTokens m.keywords = keywords49 (cleanTokens ks) := by
  rw [sanitize_keywords_char data p m ks hks h]
  exact keywordTokens_joinComma _ (goodToken_keywords49 ks) (keywords49_ne_nil ks hne)

/-- Claim C1 counterexample: for the empty provider object the keywords
field is the empty string; splitting it on commas yields one empty token,
not 49 non-empty ones. -/
theorem sanitize_keywords_empty_object_not_49 :
    sanitizeMetadata [] Platform.AdobeStock =
      .ok { title := str "Untitled Stock Asset"
            description := str "High quality commercial stock asset for creative projects."
            keywords := []
            mainTag := Json.jstr []
            category1 := none
            category2 := none } ∧
    ¬ keywordsOk49
      { title := str "Untitled Stock Asset"
        description := str "High quality commercial stock asset for creative projects."
        keywords := []
        mainTag := Json.jstr []
        category1 := none
        category2 := none } := by
  refine ⟨rfl, ?_⟩
  unfold keywordsOk49
  decide

/-- Claim C1 (amended): whenever the provider keywords string cleans to a
non-empty token list (and the normalizer succeeds), the keywords field of
the result splits on commas into exactly 49 non-empty, lower-cased,
whitespace-trimmed tokens; when it cleans to no tokens the field stays the
empty string. -/
theorem sanitize_keywords_49 (data : List (Str × Json)) (p : Platform) (m : Metadata)
    (ks : Str) (hks : asStr (kwFieldValue data) = .ok ks)
    (h : sanitizeMetadata data p = .ok m) :
    (cleanTokens ks ≠ [] → keywordsOk49 m) ∧
    (cleanTokens ks = [] → m.keywords = []) := by
  constructor
  · intro hne
    have hkw := keywordTokens_of_sanitize data p m ks hks h hne
    unfold keywordsOk49
    rw [hkw]
    refine ⟨keywords49_length _ hne, ?_⟩
    intro t ht
    have hg := goodToken_keywords49 ks t ht
    exact ⟨hg.1, hg.2.2.2, hg.2.2.1⟩
  · intro hnil
    rw [sanitize_keywords_char data p m ks hks h, hnil,
      keywords49_eq_self [] (Or.inr rfl)]
    rfl

/-- Witness for claim C1 (amended): "Cat, Cat, Dog" cleans to three tokens,
and the normalized keywords field splits into exactly 49 good tokens. -/
theorem sanitize_keywords_49_witness :
    exceptOkHolds
      (sanitizeMetadata [(str "keywords", Json.jstr (str "Cat, Cat, Dog"))]
        Platform.AdobeStock) keywordsOk49 := by
  have hm : sanitizeMetadata [(str "keywords", Json.jstr (str "Cat, Cat, Dog"))]
      Platform.AdobeStock =
      .ok (mkMeta Platform.AdobeStock [(str "keywords", Json.jstr (str "Cat, Cat, Dog"))]
        (keywords49 (cleanTokens (str "Cat, Cat, Dog"))) (str "Untitled Stock Asset")
        (str "High quality commercial stock asset for creative projects.")) := rfl
  exact (sanitize_keywords_49 [(str "keywords", Json.jstr (str "Cat, Cat, Dog"))]
    Platform.AdobeStock _ (str "Cat, Cat, Dog") rfl hm).1 (by decide)

/-- Claim C3 counterexample: keywords "Cat, Cat, Dog" give a normalized
keyword list whose first two entries are both "cat": the joined 49 keywords
are not de-duplicated. -/
theorem sanitize_keywords_duplicates :
    (sanitizeMetadata [(str "keywords", Json.jstr (str "Cat, Cat, Dog"))]
        Platform.AdobeStock).map (fun m => (keywordTokens m.keywords).take 2) =
      .ok [str "cat", str "cat"] ∧
    (sanitizeMetadata [(str "keywords", Json.jstr (str "Cat, Cat, Dog"))]
        Platform.AdobeStock).map (fun m => decide (keywordTokens m.keywords).Nodup) =
      .ok false := by
  exact ⟨rfl, rfl⟩

/-- Claim C3 (amended): the normalizer performs no de-duplication: whenever
the cleaned token list is non-empty the normalized keyword list equals
keywords49 of the cleaned tokens — original duplicates and padded repeats
survive; when it is empty the keywords field stays empty. -/
theorem sanitize_keywords_no_dedup (data : List (Str × Json)) (p : Platform)
    (m : Metadata) (ks : Str) (hks : asStr (kwFieldValue data) = .ok ks)
    (h : sanitizeMetadata data p = .ok m) :
    (cleanTokens ks ≠ [] → keywordTokens m.keywords = keywords49 (cleanTokens ks)) ∧
    (cleanTokens ks = [] → m.keywords = []) := by
  constructor
  · intro hne
    exact keywordTokens_of_sanitize data p m ks hks h hne
  · intro hnil
    rw [sanitize_keywords_char data p m ks hks h, hnil,
      keywords49_eq_self [] (Or.inr rfl)]
    rfl

/-- Witness for claim C3 (amended): on "Cat, Cat, Dog" the normalized token
list is exactly the keywords49 padding of the three cleaned tokens. -/
theorem sanitize_keywords_no_dedup_witness :
    exceptOkHolds
      (sanitizeMetadata [(str "keywords", Json.jstr (str "Cat, Cat, Dog"))]
        Platform.AdobeStock)
      (fun m => keywordTokens m.keywords =
        keywords49 (cleanTokens (str "Cat, Cat, Dog"))) := by
  have hm : sanitizeMetadata [(str "keywords", Json.jstr (str "Cat, Cat, Dog"))]
      Platform.AdobeStock =
      .ok (mkMeta Platform.AdobeStock [(str "keywords", Json.jstr (str "Cat, Cat, Dog"))]
        (keywords49 (cleanTokens (str "Cat, Cat, Dog"))) (str "Untitled Stock Asset")
        (str "High quality commercial stock asset for creative projects.")) := rfl
  exact (sanitize_keywords_no_dedup [(str "keywords", Json.jstr (str "Cat, Cat, Dog"))]
    Platform.AdobeStock _ (str "Cat, Cat, Dog") rfl hm).1 (by decide)

/-- Claim C6: for a cleaned token count n with 0 < n < 49 the normalized
keyword list keeps the n original tokens in order and pads entry n+i with
token (i mod n) suffixed "_concept" up to exactly 49 entries; for n > 49
only the first 49 tokens are kept in order.  (Determinism is definitional:
the normalizer is a pure function of its input.) -/
theorem sanitize_keywords_pad_cycle (data : List (Str × Json)) (p : Platform)
    (m : Metadata) (ks : Str) (hks : asStr (kwFieldValue data) = .ok ks)
    (h : sanitizeMetadata data p = .ok m) :
    (0 < (cleanTokens ks).length → (cleanTokens ks).length < 49 →
      (keywordTokens m.keywords).length = 49 ∧
      (∀ i, i < (cleanTokens ks).length →
        (keywordTokens m.keywords).getD i [] = (cleanTokens ks).getD i []) ∧
      (∀ i, (cleanTokens ks).length + i < 49 →
        (keywordTokens m.keywords).getD ((cleanTokens ks).length + i) [] =
          (cleanTokens ks).getD (i % (cleanTokens ks).length) [] ++ str "_concept")) ∧
    (49 < (cleanTokens ks).length →
      keywordTokens m.keywords = (cleanTokens ks).take 49) := by
  constructor
  · intro hpos hlt
    have hne : cleanTokens ks ≠ [] := by
      intro hn
      rw [hn] at hpos
      cases hpos
    have hkw := keywordTokens_of_sanitize data p m ks hks h hne
    rw [hkw]
    refine ⟨keywords49_length _ hne, ?_, ?_⟩
    · intro i hi
      exact keywords49_getD_orig _ hpos hlt i hi
    · intro i hi
      exact keywords49_getD_pad _ hpos hlt i hi
  · intro hgt
    have hne : cleanTokens ks ≠ [] := by
      intro hn
      rw [hn] at hgt
      cases hgt
    rw [keywordTokens_of_sanitize data p m ks hks h hne,
      keywords49_take_of_gt _ hgt]

/-- Witness for claim C6: for "Cat, Cat, Dog" (n = 3) the normalized list
has 49 entries, starts with "cat", and pads entry 3 with "cat_concept" and
entry 5 with "dog_concept". -/
theorem sanitize_keywords_pad_cycle_witness :
    exceptOkHolds
      (sanitizeMetadata [(str "keywords", Json.jstr (str "Cat, Cat, Dog"))]
        Platform.AdobeStock)
      (fun m => (keywordTokens m.keywords).length = 49 ∧
        (keywordTokens m.keywords).getD 0 [] = str "cat" ∧
        (keywordTokens m.keywords).getD 3 [] = str "cat_concept" ∧
        (keywordTokens m.keywords).getD 5 [] = str "dog_concept") := by
  have hm : sanitizeMetadata [(str "keywords", Json.jstr (str "Cat, Cat, Dog"))]
      Platform.AdobeStock =
      .ok (mkMeta Platform.AdobeStock [(str "keywords", Json.jstr (str "Cat, Cat, Dog"))]
        (keywords49 (cleanTokens (str "Cat, Cat, Dog"))) (str "Untitled Stock Asset")
        (str "High quality commercial stock asset for creative projects.")) := rfl
  have happ := (sanitize_keywords_pad_cycle
    [(str "keywords", Json.jstr (str "Cat, Cat, Dog"))]
    Platform.AdobeStock _ (str "Cat, Cat, Dog") rfl hm).1 (by decide) (by decide)
  refine ⟨happ.1, ?_, ?_, ?_⟩
  · have h0 := happ.2.1 0 (by decide)
    exact h0.trans (by decide)
  · have h3 := happ.2.2 0 (by decide)
    exact h3.trans (by decide)
  · have h5 := happ.2.2 2 (by decide)
    exact h5.trans (by decide)

theorem jsOr_eq_fb_of_falsy (v : Option Json) (fb : Json)
    (h : jsTruthy (jsOr v fb) = false) : jsOr v fb = fb := by
  cases v with
  | none => rfl
  | some j =>
    by_cases ht : jsTruthy j = true
    · rw [jsOr_some_truthy _ _ ht] at h
      rw [ht] at h
      cases h
    · exact jsOr_some_falsy _ _ (by revert ht; cases jsTruthy j <;> simp)

theorem getField_metaToObj_category2 (m : Metadata) (c : Str)
    (h : m.category2 = some c) :
    getField (metaToObj m) (str "category2") = some (.jstr c) := by
  unfold metaToObj
  rw [h]
  cases hc1 : m.category1 with
  | none => rfl
  | some c1 => rfl

theorem metadata_ext (a b : Metadata) (h1 : a.title = b.title)
    (h2 : a.description = b.description) (h3 : a.keywords = b.keywords)
    (h4 : a.mainTag = b.mainTag) (h5 : a.category1 = b.category1)
    (h6 : a.category2 = b.category2) : a = b := by
  cases a
  cases b
  simp only [] at h1 h2 h3 h4 h5 h6
  rw [h1, h2, h3, h4, h5, h6]

/-- Claim C10: the normalizer is idempotent: feeding the Metadata produced
by sanitizeMetadata back into it (as a provider object with the same six
fields) returns that same Metadata unchanged, for every platform. -/
theorem sanitize_idempotent (data : List (Str × Json)) (p : Platform) (m : Metadata)
    (h : sanitizeMetadata data p = .ok m) :
    sanitizeMetadata (metaToObj m) p = .ok m := by
  obtain ⟨ks, ts, ds, h1, h2, h3, hm⟩ := sanitizeMetadata_ok_elim data p m h
  have hts_ne : ts ≠ [] :=
    asStr_jsOr_ok_ne_nil (getField data (str "title")) (str "Untitled Stock Asset") ts
      (by decide) h2
  have hds_ne : ds ≠ [] :=
    asStr_jsOr_ok_ne_nil (getField data (str "description"))
      (str "High quality commercial stock asset for creative projects.") ds
      (by decide) h3
  have e1 : m.title = ts.take 120 := by rw [hm]; rfl
  have e2 : m.description = ds.take 200 := by rw [hm]; rfl
  have e3 : m.keywords = joinComma (keywords49 (cleanTokens ks)) := by rw [hm]; rfl
  have e4 : m.mainTag = jsOr (getField data (str "mainTag"))
      (jsOr ((keywords49 (cleanTokens ks)).head?.map Json.jstr)
        (.jstr (if p = Platform.Teepublic then str "graphic" else []))) := by
    rw [hm]; rfl
  have e5 : m.category1 = if p = Platform.Shutterstock
      then some (catPick (getField data (str "category1")) 0) else none := by
    rw [hm]; rfl
  have e6 : m.category2 = if p = Platform.Shutterstock
      then some (catPick (getField data (str "category2")) 1) else none := by
    rw [hm]; rfl
  have hgood : ∀ t ∈ keywords49 (cleanTokens ks), GoodToken t := goodToken_keywords49 ks
  have hlen49or : (keywords49 (cleanTokens ks)).length = 49 ∨
      keywords49 (cleanTokens ks) = [] := by
    by_cases hcs : cleanTokens ks = []
    · exact Or.inr (by rw [hcs]; rfl)
    · exact Or.inl (keywords49_length _ hcs)
  have htne : m.title ≠ [] := by
    rw [e1]
    exact take_ne_nil_of 120 ts (by decide) hts_ne
  have hdne : m.description ≠ [] := by
    rw [e2]
    exact take_ne_nil_of 200 ds (by decide) hds_ne
  have hk' : asStr (kwFieldValue (metaToObj m)) = .ok m.keywords := by
    show asStr (jsOr (getField (metaToObj m) (str "keywords")) (.jstr [])) =
      .ok m.keywords
    rw [getField_metaToObj_keywords]
    exact asStr_jsOr_str_self _
  have ht' : asStr (titleFieldValue (metaToObj m)) = .ok m.title := by
    show asStr (jsOr (getField (metaToObj m) (str "title"))
      (.jstr (str "Untitled Stock Asset"))) = .ok m.title
    rw [getField_metaToObj_title, jsOr_some_truthy _ _ (jsTruthy_jstr_ne _ htne)]
    rfl
  have hd' : asStr (descFieldValue (metaToObj m)) = .ok m.description := by
    show asStr (jsOr (getField (metaToObj m) (str "description"))
      (.jstr (str "High quality commercial stock asset for creative projects."))) =
      .ok m.description
    rw [getField_metaToObj_description, jsOr_some_truthy _ _ (jsTruthy_jstr_ne _ hdne)]
    rfl
  have hintro := sanitizeMetadata_ok_intro (metaToObj m) p m.keywords m.title
    m.description hk' ht' hd'
  have hclean : cleanTokens m.keywords = keywords49 (cleanTokens ks) := by
    rw [e3]
    exact cleanTokens_joinComma _ hgood
  have hK : keywords49 (cleanTokens m.keywords) = keywords49 (cleanTokens ks) := by
    rw [hclean]
    exact keywords49_eq_self _ hlen49or
  have heq : mkMeta p (metaToObj m) (keywords49 (cleanTokens m.keywords)) m.title
      m.description = m := by
    apply metadata_ext
    · rw [mkMeta_title, e1, take_idem]
    · rw [mkMeta_description, e2, take_idem]
    · rw [mkMeta_keywords, hK, e3]
    · rw [mkMeta_mainTag, getField_metaToObj_mainTag, hK]
      by_cases htru : jsTruthy m.mainTag = true
      · rw [jsOr_some_truthy _ _ htru]
      · have hfal : jsTruthy m.mainTag = false := by
          revert htru
          cases jsTruthy m.mainTag <;> simp
        rw [jsOr_some_falsy _ _ hfal]
        have hx := jsOr_eq_fb_of_falsy (getField data (str "mainTag"))
          (jsOr ((keywords49 (cleanTokens ks)).head?.map Json.jstr)
            (.jstr (if p = Platform.Teepublic then str "graphic" else [])))
          (by rw [← e4]; exact hfal)
        rw [e4, hx]
    · rw [mkMeta_category1]
      by_cases hp : p = Platform.Shutterstock
      · subst hp
        rw [if_pos rfl]
        have hc1 : m.category1 = some (catPick (getField data (str "category1")) 0) := by
          rw [e5, if_pos rfl]
        rw [getField_metaToObj_category1 m _ hc1, hc1]
        show some (if catPick (getField data (str "category1")) 0 ∈ SHUTTERSTOCK_CATEGORIES
          then catPick (getField data (str "category1")) 0
          else SHUTTERSTOCK_CATEGORIES.getD 0 []) =
          some (catPick (getField data (str "category1")) 0)
        rw [if_pos (catPick_mem _ 0 (by omega))]
      · rw [if_neg hp, e5, if_neg hp]
    · rw [mkMeta_category2]
      by_cases hp : p = Platform.Shutterstock
      · subst hp
        rw [if_pos rfl]
        have hc2 : m.category2 = some (catPick (getField data (str "category2")) 1) := by
          rw [e6, if_pos rfl]
        rw [getField_metaToObj_category2 m _ hc2, hc2]
        show some (if catPick (getField data (str "category2")) 1 ∈ SHUTTERSTOCK_CATEGORIES
          then catPick (getField data (str "category2")) 1
          else SHUTTERSTOCK_CATEGORIES.getD 1 []) =
          some (catPick (getField data (str "category2")) 1)
        rw [if_pos (catPick_mem _ 1 (by omega))]
      · rw [if_neg hp, e6, if_neg hp]
  rw [heq] at hintro
  exact hintro

/-- Witness for claim C10: a concrete run (keywords "Cat, Dog", title
"A cat", Teepublic) whose output, fed back in as a provider object, is
returned unchanged. -/
theorem sanitize_idempotent_witness :
    sanitizeMetadata
      (metaToObj (mkMeta Platform.Teepublic
        [(str "keywords", Json.jstr (str "Cat, Dog")),
         (str "title", Json.jstr (str "A cat"))]
        (keywords49 (cleanTokens (str "Cat, Dog"))) (str "A cat")
        (str "High quality commercial stock asset for creative projects.")))
      Platform.Teepublic =
    .ok (mkMeta Platform.Teepublic
      [(str "keywords", Json.jstr (str "Cat, Dog")),
       (str "title", Json.jstr (str "A cat"))]
      (keywords49 (cleanTokens (str "Cat, Dog"))) (str "A cat")
      (str "High quality commercial stock asset for creative projects.")) :=
  sanitize_idempotent
    [(str "keywords", Json.jstr (str "Cat, Dog")),
     (str "title", Json.jstr (str "A cat"))]
    Platform.Teepublic _ rfl
